import Mathlib

/-!
Shallow embedding of the LMS quiz-attempt engine and access-control logic
(apps/quizzes/models.py, apps/quizzes/views.py, apps/courses/views.py),
with theorems checking the specification's claims about it.

Conventions: machine question ids are `Nat`; the JSON answers blob is an
association list from question id to the submitted string; Python floats
(score, percentage) are modelled as exact rationals; timestamps are seconds
since an arbitrary epoch (`Nat`), and the request clock is passed explicitly.
-/

namespace LMS

/-- Status of a quiz attempt (models.py QuizAttempt.STATUS_CHOICES). -/
inductive AttemptStatus
  | in_progress
  | completed
deriving DecidableEq, BEq

/-- One MCQ question (models.py Question): id, points, the single
correct letter, and its display order. Option texts are irrelevant to the
claims and omitted. -/
structure Question where
  id : Nat
  points : Nat
  correct_answer : String
  order : Nat
deriving DecidableEq

/-- Quiz settings (models.py Quiz); questions are kept sorted by `order`,
matching the default queryset ordering `ordering = [ order]`. -/
structure Quiz where
  time_limit : Nat
  passing_score : Nat
  max_attempts : Nat
  is_published : Bool
  questions : List Question
deriving DecidableEq

/-- A quiz attempt row (models.py QuizAttempt) for a fixed (student, quiz). -/
structure QuizAttempt where
  status : AttemptStatus
  score : ℚ
  percentage : ℚ
  passed : Bool
  answers : List (Nat × String)
  started_at : Nat
  completed_at : Option Nat
  time_taken : Nat
  attempt_number : Nat
deriving DecidableEq

/-- Dictionary lookup `self.answers.get(str(question.id))`. -/
def lookupAnswer (answers : List (Nat × String)) (qid : Nat) : Option String :=
  (answers.find? (fun p => p.1 == qid)).map (fun p => p.2)

/-- ASCII uppercase of one character, modelling Python str.upper on the
single-letter answer strings the system stores. -/
def upperChar (c : Char) : Char :=
  if 97 ≤ c.toNat ∧ c.toNat ≤ 122 then Char.ofNat (c.toNat - 32) else c

/-- ASCII uppercase of a string (Python `str.upper()`). -/
def upperStr (s : String) : String := ⟨s.data.map upperChar⟩

/-- Question.check_answer: `str(answer).upper() == self.correct_answer`. -/
def Question.check_answer (q : Question) (answer : String) : Bool :=
  upperStr answer == q.correct_answer

/-- Loop accumulator `total_points += question.points` of
QuizAttempt.calculate_score, split out of the single Python loop. -/
def totalPoints : List Question → Nat
  | [] => 0
  | q :: qs => q.points + totalPoints qs

/-- The guard `if answer and question.check_answer(answer)` of
calculate_score: the stored answer must be present, truthy (non-empty),
and correct under the case-insensitive comparison. -/
def answerEarns (answers : List (Nat × String)) (q : Question) : Bool :=
  match lookupAnswer answers q.id with
  | some a => a != "" && q.check_answer a
  | none => false

/-- Loop accumulator `earned_points += question.points` of calculate_score. -/
def earnedPoints (answers : List (Nat × String)) : List Question → Nat
  | [] => 0
  | q :: qs => (if answerEarns answers q then q.points else 0) + earnedPoints answers qs

/-- QuizAttempt.calculate_score (models.py lines 128-146): sums points,
and only when `total_points > 0` writes score, percentage and passed;
always flips status to completed. -/
def QuizAttempt.calculate_score (a : QuizAttempt) (quiz : Quiz) : QuizAttempt :=
  let tp := totalPoints quiz.questions
  let ep := earnedPoints a.answers quiz.questions
  let a1 :=
    if 0 < tp then
      let pct : ℚ := ((ep : ℚ) / (tp : ℚ)) * 100
      { a with score := (ep : ℚ), percentage := pct,
               passed := decide ((quiz.passing_score : ℚ) ≤ pct) }
    else a
  { a1 with status := .completed }

/-- QuizAttempt.get_time_remaining (models.py lines 148-161), with the
request clock `now` passed explicitly. Returns the value returned to the
caller together with the (possibly auto-completed) attempt row. -/
def QuizAttempt.get_time_remaining (a : QuizAttempt) (q : Quiz) (now : Nat) :
    Option Int × QuizAttempt :=
  if q.time_limit = 0 ∨ a.status ≠ .in_progress then (none, a)
  else
    let elapsed : Int := (now : Int) - (a.started_at : Int)
    let remaining : Int := (q.time_limit : Int) * 60 - elapsed
    if remaining ≤ 0 then (some 0, { a with status := .completed })
    else (some remaining, a)

/-- Per-(student, quiz) view of the database rows the take_quiz view touches:
the quiz, whether an Enrollment row exists for (student, course), and the
student's QuizAttempt rows, newest first (Meta ordering `-started_at`). -/
structure Store where
  quiz : Quiz
  enrolled : Bool
  attempts : List QuizAttempt
deriving DecidableEq

/-- Outcome of one take_quiz request, as seen by the client (views.py
take_quiz): redirects with an error message, the incomplete-answers warning
render (carrying the counts shown in the message), the post-submission
redirect to results, or the quiz page render (carrying the number of the
attempt placed in the template context, if any). -/
inductive TakeOutcome
  | notEnrolled
  | noQuiz
  | maxAttemptsReached
  | incomplete (answered total : Nat)
  | submitted (percentage : ℚ)
  | page (attemptNumber : Option Nat)
deriving DecidableEq

/-- Apply `f` to the first in-progress attempt in the row list, mirroring a
`save()` on the row returned by `.filter(status=in_progress).first()`. -/
def updFirstInProgress (f : QuizAttempt → QuizAttempt) : List QuizAttempt → List QuizAttempt
  | [] => []
  | a :: rest =>
      if a.status == .in_progress then f a :: rest
      else a :: updFirstInProgress f rest

/-- The template-context expression
`current_attempt.get_time_remaining() if current_attempt else None`
evaluated at render time: it saves the attempt auto-completed by
get_time_remaining back to the store. -/
def renderUpdate (st : Store) (now : Nat) : Store :=
  { st with attempts :=
      updFirstInProgress (fun a => (a.get_time_remaining st.quiz now).2) st.attempts }

/-- Newly created attempt row (views.py line 319): model defaults plus
`attempt_number = attempts_count + 1` and `started_at = now`. -/
def freshAttempt (n : Nat) (now : Nat) : QuizAttempt :=
  ⟨.in_progress, 0, 0, false, [], now, none, 0, n⟩

/-- take_quiz (views.py lines 249-339) as a function of the store, the
request method, the `question_*` fields of the POST body (as an association
list with distinct keys, like the POST dict), and the request clock. -/
def take_quiz (st : Store) (isPost : Bool) (postAnswers : List (Nat × String)) (now : Nat) :
    TakeOutcome × Store :=
  if st.enrolled = false then (.notEnrolled, st)
  else if st.quiz.is_published = false then (.noQuiz, st)
  else if 0 < st.quiz.max_attempts ∧ st.quiz.max_attempts ≤ st.attempts.length then
    (.maxAttemptsReached, st)
  else
    match st.attempts.find? (fun a => a.status == .in_progress) with
    | some cur =>
        if isPost then
          if postAnswers.length < st.quiz.questions.length then
            (.incomplete postAnswers.length st.quiz.questions.length, renderUpdate st now)
          else
            let submitted := fun c =>
              QuizAttempt.calculate_score
                { c with answers := postAnswers, completed_at := some now,
                         time_taken := now - c.started_at } st.quiz
            (.submitted (submitted cur).percentage,
              { st with attempts := updFirstInProgress submitted st.attempts })
        else (.page (some cur.attempt_number), renderUpdate st now)
    | none =>
        if isPost then (.page none, st)
        else
          let fresh := freshAttempt (st.attempts.length + 1) now
          (.page (some fresh.attempt_number),
            renderUpdate { st with attempts := fresh :: st.attempts } now)

/-- States reachable for one (student, quiz) pair from the empty history,
under take-quiz requests, standalone time-remaining reads, and enrollment
changes. -/
inductive Reach (q : Quiz) : Store → Prop
  | init : Reach q ⟨q, false, []⟩
  | enroll {st} : Reach q st → Reach q { st with enrolled := true }
  | unenroll {st} : Reach q st → Reach q { st with enrolled := false }
  | take {st} (isPost : Bool) (ans : List (Nat × String)) (now : Nat) :
      Reach q st → Reach q (take_quiz st isPost ans now).2
  | query {st} (now : Nat) : Reach q st → Reach q (renderUpdate st now)

/-- Number of in-progress rows for the (student, quiz) pair. -/
def inProgressCount (l : List QuizAttempt) : Nat :=
  l.countP (fun a => a.status == .in_progress)

/-- The list `[n, n-1, ..., 1]`: attempt numbers newest first. -/
def descFrom : Nat → List Nat
  | 0 => []
  | n + 1 => (n + 1) :: descFrom n

/-- Earned points exactly as the spec words it: the sum of `points` over
those questions whose stored answer equals `correct_answer` under
case-insensitive comparison. Compared below against the loop in
calculate_score. -/
def specEarnedPoints (answers : List (Nat × String)) : List Question → Nat
  | [] => 0
  | q :: qs =>
      (if (lookupAnswer answers q.id).map upperStr = some q.correct_answer
       then q.points else 0) + specEarnedPoints answers qs

/-- The worked example of the spec: two questions worth 2 and 3 points,
correct answers A and B, passing score 60. -/
def exQuiz : Quiz := ⟨0, 60, 0, true, [⟨1, 2, "A", 1⟩, ⟨2, 3, "B", 2⟩]⟩

/-- Attempt holding the given answers, otherwise fresh. -/
def exAttempt (ans : List (Nat × String)) : QuizAttempt :=
  { freshAttempt 1 0 with answers := ans }

/-- A published quiz with no questions and passing score 0. -/
def q0 : Quiz := ⟨0, 0, 0, true, []⟩

/-- One row of the per-question breakdown assembled by the quiz_results view
(views.py lines 353-364). -/
structure QuestionResult where
  question : Question
  user_answer : Option String
  is_correct : Bool
  correct_answer : String
  points : Nat
deriving DecidableEq

/-- The row quiz_results builds for one question: note the comparison
`user_answer == question.correct_answer` is case-sensitive, with the Python
truthiness guard `if user_answer`. -/
def resultFor (attempt : QuizAttempt) (q : Question) : QuestionResult :=
  let ua := lookupAnswer attempt.answers q.id
  let ic :=
    match ua with
    | some a => if a != "" then a == q.correct_answer else false
    | none => false
  ⟨q, ua, ic, q.correct_answer, if ic then q.points else 0⟩

/-- quiz_results (views.py lines 343-372): the per-question breakdown over
the quiz's questions in display order. -/
def quiz_results (attempt : QuizAttempt) (qs : List Question) : List QuestionResult :=
  qs.map (resultFor attempt)

/-- Sum of the points column of a breakdown. -/
def resultsPointsSum : List QuestionResult → Nat
  | [] => 0
  | r :: rs => r.points + resultsPointsSum rs

/-- Quiz exhibiting the scoring-versus-results case-sensitivity difference:
one question worth 2 points with correct answer A. -/
def csQuiz : Quiz := ⟨0, 50, 0, true, [⟨1, 2, "A", 1⟩]⟩

/-- Attempt whose stored answer is the lowercase letter a. -/
def csAttempt : QuizAttempt := { freshAttempt 1 0 with answers := [(1, "a")] }

/-- A published one-question quiz capped at max_attempts = 1. -/
def q4 : Quiz := ⟨0, 60, 1, true, [⟨1, 1, "A", 1⟩]⟩

/-- Store of an enrolled student holding their only (in-progress) attempt at
the capped quiz. -/
def st4 : Store := ⟨q4, true, [freshAttempt 1 0]⟩

/-- A published two-question quiz with a one-minute time limit. -/
def qT : Quiz := ⟨1, 60, 0, true, [⟨1, 1, "A", 1⟩, ⟨2, 1, "B", 2⟩]⟩

/-- Store of an enrolled student with an in-progress attempt on the timed
quiz, started at time 0. -/
def stT : Store := ⟨qT, true, [freshAttempt 1 0]⟩

/-- An attempt already completed (for instance by time expiry). -/
def completedAttempt : QuizAttempt := { freshAttempt 1 0 with status := .completed }

/-- Store of an enrolled student whose only attempt is already completed. -/
def stC : Store := ⟨qT, true, [completedAttempt]⟩

/-- A user row of the custom User model (accounts/models.py): identity, the
user_type role string, and the is_superuser flag. -/
structure User where
  id : Nat
  user_type : String
  is_superuser : Bool
deriving DecidableEq

/-- User.is_instructor property. -/
def User.is_instructor (u : User) : Bool := u.user_type == "instructor"

/-- User.is_admin_user property: admin role or Django superuser. -/
def User.is_admin_user (u : User) : Bool := u.user_type == "admin" || u.is_superuser

/-- A course row reduced to the field access control reads: its owner. -/
structure Course where
  instructor_id : Nat
deriving DecidableEq

/-- A lesson row reduced to its free-preview flag. -/
structure Lesson where
  is_free_preview : Bool
deriving DecidableEq

/-- The access decision of the lesson_detail endpoint (courses/views.py):
the @login_required decorator turns anonymous requests away (redirect to
login) before the view body runs; inside the body, a free-preview lesson
grants, otherwise the owning instructor, an admin, or an enrolled student is
granted. `enrolled` is the Enrollment.objects.filter(...).exists() lookup for
the requesting user. -/
def lesson_detail_access (principal : Option User) (lesson : Lesson) (course : Course)
    (enrolled : Bool) : Bool :=
  match principal with
  | none => false
  | some u =>
      if lesson.is_free_preview then true
      else (u.is_instructor && course.instructor_id == u.id) || u.is_admin_user || enrolled

/-- The permission expression repeated at the instructor endpoints
(views.py: `(request.user.is_instructor and course.instructor ==
request.user) ... or request.user.is_admin_user`). -/
def canManageCourse (u : User) (c : Course) : Bool :=
  (u.is_instructor && c.instructor_id == u.id) || u.is_admin_user

/-- Response of the delete_question endpoint. -/
inductive DeleteResult
  | success
  | invalidMethod
deriving DecidableEq

/-- The renumbering loop of delete_question: remaining questions (in display
order) get order 1, 2, 3, ... -/
def renumber : Nat → List Question → List Question
  | _, [] => []
  | i, q :: qs => { q with order := i } :: renumber (i + 1) qs

/-- delete_question (views.py lines 229-245): beyond @login_required, the
view performs no permission check at all — `principal` is unused — and on
POST deletes the question and renumbers the survivors. -/
def delete_question (_principal : User) (isPost : Bool) (questions : List Question)
    (qid : Nat) : DeleteResult × List Question :=
  if isPost then
    (.success, renumber 1 (questions.filter (fun q => q.id != qid)))
  else (.invalidMethod, questions)

/-- A plain student: not an instructor, not an admin, not a superuser. -/
def aStudent : User := ⟨5, "student", false⟩

/-- A course owned by instructor 1 (not by aStudent). -/
def aCourse : Course := ⟨1⟩

end LMS

-- ===================== theorems =====================

namespace LMS

/-- The empty string is fixed by uppercasing. -/
theorem upperStr_empty : upperStr "" = "" := rfl

/-- The calculate_score loop earns exactly the points the spec describes,
whenever every correct_answer is a nonempty letter (so Python truthiness of
the stored answer cannot disagree with the comparison). -/
theorem earnedPoints_eq_spec (ans : List (Nat × String)) (qs : List Question)
    (h : ∀ q ∈ qs, q.correct_answer ≠ "") :
    earnedPoints ans qs = specEarnedPoints ans qs := by
  induction qs with
  | nil => rfl
  | cons q qs ih =>
    have hq : q.correct_answer ≠ "" := h q (List.mem_cons_self q qs)
    have hrest : ∀ r ∈ qs, r.correct_answer ≠ "" :=
      fun r hr => h r (List.mem_cons_of_mem q hr)
    simp only [earnedPoints, specEarnedPoints, ih hrest]
    congr 1
    unfold answerEarns
    cases hl : lookupAnswer ans q.id with
    | none => simp
    | some a =>
      by_cases hm : upperStr a = q.correct_answer
      · have ha : a ≠ "" := by
          intro h0
          subst h0
          exact hq (upperStr_empty ▸ hm).symm
        simp [Question.check_answer, hm, ha]
      · simp [Question.check_answer, hm]

/-- Shape of calculate_score when the quiz has positive total points. -/
theorem calculate_score_pos (a : QuizAttempt) (quiz : Quiz)
    (h : 0 < totalPoints quiz.questions) :
    a.calculate_score quiz =
      { a with
        score := (earnedPoints a.answers quiz.questions : ℚ),
        percentage :=
          (earnedPoints a.answers quiz.questions : ℚ) / (totalPoints quiz.questions : ℚ) * 100,
        passed := decide ((quiz.passing_score : ℚ) ≤
          (earnedPoints a.answers quiz.questions : ℚ) / (totalPoints quiz.questions : ℚ) * 100),
        status := .completed } := by
  unfold QuizAttempt.calculate_score
  simp only [h, if_true, if_pos]

/-- Shape of calculate_score when total points are zero: only the status
changes; score, percentage and passed keep their prior values. -/
theorem calculate_score_zero (a : QuizAttempt) (quiz : Quiz)
    (h : totalPoints quiz.questions = 0) :
    a.calculate_score quiz = { a with status := .completed } := by
  unfold QuizAttempt.calculate_score
  simp [h]

/-- C1: scoring sums total points over all questions and earned points over
exactly the case-insensitively correct ones; with positive total points the
completed attempt has score = earned, percentage = earned / total * 100 and
passed iff percentage reaches the passing score; and on the spec's worked
example (questions worth 2 and 3 points, correct A and B, passing score 60)
answers A,B give score 5 / percentage 100 / passed and answers B,B give
score 3 / percentage 60 / passed. -/
theorem scoring_correct (quiz : Quiz) (a : QuizAttempt)
    (h1 : 0 < totalPoints quiz.questions)
    (h2 : ∀ q ∈ quiz.questions, q.correct_answer ≠ "") :
    ((a.calculate_score quiz).score = (specEarnedPoints a.answers quiz.questions : ℚ)
      ∧ (a.calculate_score quiz).percentage
          = (specEarnedPoints a.answers quiz.questions : ℚ) / (totalPoints quiz.questions : ℚ) * 100
      ∧ ((a.calculate_score quiz).passed = true
          ↔ (quiz.passing_score : ℚ) ≤ (a.calculate_score quiz).percentage)
      ∧ (a.calculate_score quiz).status = .completed)
    ∧ (((exAttempt [(1, "A"), (2, "B")]).calculate_score exQuiz).score = 5
      ∧ ((exAttempt [(1, "A"), (2, "B")]).calculate_score exQuiz).percentage = 100
      ∧ ((exAttempt [(1, "A"), (2, "B")]).calculate_score exQuiz).passed = true
      ∧ ((exAttempt [(1, "B"), (2, "B")]).calculate_score exQuiz).score = 3
      ∧ ((exAttempt [(1, "B"), (2, "B")]).calculate_score exQuiz).percentage = 60
      ∧ ((exAttempt [(1, "B"), (2, "B")]).calculate_score exQuiz).passed = true) := by
  constructor
  · rw [calculate_score_pos a quiz h1, earnedPoints_eq_spec a.answers quiz.questions h2]
    refine ⟨rfl, rfl, ?_, rfl⟩
    simp
  · have t1 : totalPoints exQuiz.questions = 5 := by decide
    have e1 : earnedPoints (exAttempt [(1, "A"), (2, "B")]).answers exQuiz.questions = 5 := by
      decide
    have e2 : earnedPoints (exAttempt [(1, "B"), (2, "B")]).answers exQuiz.questions = 3 := by
      decide
    rw [calculate_score_pos _ _ (by decide), calculate_score_pos _ _ (by decide)]
    simp only [e1, e2, t1]
    have hps : exQuiz.passing_score = 60 := rfl
    rw [hps]
    norm_num

/-- Witness for scoring_correct at the worked example quiz. -/
theorem scoring_correct_witness :
    0 < totalPoints exQuiz.questions
    ∧ ((exAttempt [(1, "A"), (2, "B")]).calculate_score exQuiz).status = .completed :=
  ⟨by decide,
    (scoring_correct exQuiz (exAttempt [(1, "A"), (2, "B")]) (by decide) (by decide)).1.2.2.2⟩

/-- C7: for a quiz with zero questions, scoring is total (no division by
zero is reachable: the division sits under the `0 < total_points` guard) and
leaves score, percentage and passed at their defaults, and submitting a fresh
attempt through take_quiz completes it with score 0, percentage 0 and
passed = false. -/
theorem zero_question_quiz_safe (q : Quiz) (s now k : Nat)
    (hq : q.questions = []) (hpub : q.is_published = true) (hmax : q.max_attempts = 0) :
    (∀ a : QuizAttempt, a.calculate_score q = { a with status := .completed })
    ∧ take_quiz ⟨q, true, [freshAttempt k s]⟩ true [] now
        = (.submitted 0,
            ⟨q, true, [⟨.completed, 0, 0, false, [], s, some now, now - s, k⟩]⟩) := by
  have htp : totalPoints q.questions = 0 := by rw [hq]; rfl
  refine ⟨fun a => calculate_score_zero a q htp, ?_⟩
  unfold take_quiz
  have hb : (AttemptStatus.in_progress == AttemptStatus.in_progress) = true := rfl
  simp only [hq, hpub, hmax, freshAttempt, List.find?, hb, updFirstInProgress,
    calculate_score_zero _ _ htp]
  norm_num

/-- Witness for zero_question_quiz_safe at the concrete empty quiz q0. -/
theorem zero_question_quiz_safe_witness :
    q0.questions = []
    ∧ take_quiz ⟨q0, true, [freshAttempt 1 3]⟩ true [] 8
        = (.submitted 0, ⟨q0, true, [⟨.completed, 0, 0, false, [], 3, some 8, 5, 1⟩]⟩) :=
  ⟨rfl, (zero_question_quiz_safe q0 3 8 1 rfl rfl rfl).2⟩

/-- C8 counterexample: on a quiz with zero total points and passing_score 0,
the scored attempt has passed = false although its percentage (0) does reach
the passing score (0), so `passed == (percentage >= passing_score)` does not
hold for all values of passing_score on zero-point quizzes. -/
theorem passed_threshold_counterexample :
    ((freshAttempt 1 0).calculate_score q0).passed = false
    ∧ (q0.passing_score : ℚ) ≤ ((freshAttempt 1 0).calculate_score q0).percentage := by
  exact ⟨by decide, by decide⟩

/-- C8 amended: `passed = (percentage >= passing_score)` holds after scoring
for every quiz whose total points are positive; when total points are zero,
scoring leaves passed and percentage untouched (so a default attempt stays
at passed = false, percentage = 0, whatever the passing score). -/
theorem passed_iff_threshold_amended :
    (∀ (quiz : Quiz) (a : QuizAttempt), 0 < totalPoints quiz.questions →
      ((a.calculate_score quiz).passed = true
        ↔ (quiz.passing_score : ℚ) ≤ (a.calculate_score quiz).percentage))
    ∧ (∀ (quiz : Quiz) (a : QuizAttempt), totalPoints quiz.questions = 0 →
      (a.calculate_score quiz).passed = a.passed
        ∧ (a.calculate_score quiz).percentage = a.percentage) := by
  constructor
  · intro quiz a h
    rw [calculate_score_pos a quiz h]
    simp
  · intro quiz a h
    rw [calculate_score_zero a quiz h]
    exact ⟨rfl, rfl⟩

/-- Witness for passed_iff_threshold_amended at concrete quizzes. -/
theorem passed_iff_threshold_amended_witness :
    (((exAttempt [(1, "A"), (2, "B")]).calculate_score exQuiz).passed = true
      ↔ (exQuiz.passing_score : ℚ)
          ≤ ((exAttempt [(1, "A"), (2, "B")]).calculate_score exQuiz).percentage)
    ∧ ((freshAttempt 1 0).calculate_score q0).passed = (freshAttempt 1 0).passed :=
  ⟨passed_iff_threshold_amended.1 exQuiz (exAttempt [(1, "A"), (2, "B")]) (by decide),
    (passed_iff_threshold_amended.2 q0 (freshAttempt 1 0) (by decide)).1⟩

/-- A successful lookup returns a value stored in the answers list. -/
theorem lookupAnswer_mem {ans : List (Nat × String)} {qid : Nat} {s : String}
    (h : lookupAnswer ans qid = some s) : ∃ p ∈ ans, p.2 = s := by
  unfold lookupAnswer at h
  cases hf : ans.find? (fun p => p.1 == qid) with
  | none => rw [hf] at h; simp at h
  | some p =>
    rw [hf] at h
    simp only [Option.map_some', Option.some.injEq] at h
    exact ⟨p, List.mem_of_find?_eq_some hf, h⟩

/-- When every stored answer string is fixed by uppercasing, the results
view awards a question its points exactly when the scoring loop does. -/
theorem resultFor_points_eq_earns (attempt : QuizAttempt) (q : Question)
    (h : ∀ p ∈ attempt.answers, upperStr p.2 = p.2) :
    (resultFor attempt q).points = (if answerEarns attempt.answers q then q.points else 0) := by
  unfold resultFor answerEarns
  cases hl : lookupAnswer attempt.answers q.id with
  | none => rfl
  | some a =>
    obtain ⟨p, hp, hpa⟩ := lookupAnswer_mem hl
    have hu : upperStr a = a := hpa ▸ h p hp
    simp only [Question.check_answer, hu]
    by_cases ha : a = "" <;> simp [ha]

/-- Under the same uppercase hypothesis, the breakdown's points column sums
to the scoring loop's earned points. -/
theorem resultsPointsSum_eq_earned (attempt : QuizAttempt) (qs : List Question)
    (h : ∀ p ∈ attempt.answers, upperStr p.2 = p.2) :
    resultsPointsSum (quiz_results attempt qs) = earnedPoints attempt.answers qs := by
  induction qs with
  | nil => rfl
  | cons q rest ih =>
    simp only [quiz_results, List.map_cons, resultsPointsSum, earnedPoints] at *
    rw [ih, resultFor_points_eq_earns attempt q h]

/-- C10 counterexample: with stored answer a (lowercase) against correct
answer A, scoring awards the 2 points (case-insensitive) but the results
breakdown reports isCorrect = false and awards 0, so the breakdown neither
matches the scoring comparison nor sums to the stored score. -/
theorem results_case_counterexample :
    ((csAttempt.calculate_score csQuiz).score = 2)
    ∧ resultsPointsSum (quiz_results (csAttempt.calculate_score csQuiz) csQuiz.questions) = 0
    ∧ (quiz_results (csAttempt.calculate_score csQuiz) csQuiz.questions).map
        (fun r => r.is_correct) = [false] := by
  refine ⟨?_, by decide, by decide⟩
  rw [calculate_score_pos _ _ (by decide)]
  have he : earnedPoints csAttempt.answers csQuiz.questions = 2 := by decide
  simp [he]

/-- C10 amended: the breakdown's isCorrect is the case-sensitive comparison
of the stored answer with correct_answer (scoring's comparison is
case-insensitive); a question's points are awarded exactly when isCorrect;
and when every stored answer is already uppercase (so the two comparisons
agree) the points column sums to the attempt's stored score, for quizzes
with positive total points. -/
theorem results_breakdown_amended :
    (∀ (attempt : QuizAttempt) (q : Question),
      ((resultFor attempt q).is_correct = true
        ↔ ∃ s, lookupAnswer attempt.answers q.id = some s ∧ s ≠ "" ∧ s = q.correct_answer)
      ∧ (resultFor attempt q).points
          = (if (resultFor attempt q).is_correct then q.points else 0))
    ∧ (∀ (quiz : Quiz) (a : QuizAttempt),
      0 < totalPoints quiz.questions →
      (∀ p ∈ a.answers, upperStr p.2 = p.2) →
      (resultsPointsSum (quiz_results (a.calculate_score quiz) quiz.questions) : ℚ)
        = (a.calculate_score quiz).score) := by
  constructor
  · intro attempt q
    constructor
    · unfold resultFor
      cases hl : lookupAnswer attempt.answers q.id with
      | none => simp
      | some a => by_cases ha : a = "" <;> simp [ha]
    · unfold resultFor
      cases hl : lookupAnswer attempt.answers q.id with
      | none => rfl
      | some a => rfl
  · intro quiz a hpos hup
    have hans : (a.calculate_score quiz).answers = a.answers := by
      rw [calculate_score_pos a quiz hpos]
    have hscore : (a.calculate_score quiz).score
        = (earnedPoints a.answers quiz.questions : ℚ) := by
      rw [calculate_score_pos a quiz hpos]
    rw [resultsPointsSum_eq_earned _ _ (by rw [hans]; exact hup), hans, hscore]

/-- Witness for results_breakdown_amended at the worked example quiz. -/
theorem results_breakdown_amended_witness :
    (resultsPointsSum (quiz_results ((exAttempt [(1, "A"), (2, "B")]).calculate_score exQuiz)
        exQuiz.questions) : ℚ)
      = ((exAttempt [(1, "A"), (2, "B")]).calculate_score exQuiz).score :=
  results_breakdown_amended.2 exQuiz (exAttempt [(1, "A"), (2, "B")]) (by decide) (by decide)

/-- C4: with max_attempts = 1, an enrolled student holding their single
in-progress attempt has a complete submission rejected by the attempt-cap
check (the cap check in take_quiz runs before the POST branch), and the
store is unchanged: the attempt stays in_progress and is never scored. The
spec requires this submission to be accepted and scored. -/
theorem submission_blocked_by_cap :
    take_quiz st4 true [(1, "A")] 30 = (.maxAttemptsReached, st4)
    ∧ (st4.attempts.find? (fun a => a.status == .in_progress)).isSome = true
    ∧ st4.attempts.length = q4.max_attempts := by
  exact ⟨by decide, by decide, by decide⟩

/-- Replacing the first in-progress row with itself is a no-op. -/
theorem updFirstInProgress_eq_self {f : QuizAttempt → QuizAttempt} :
    ∀ {l : List QuizAttempt} {cur : QuizAttempt},
      l.find? (fun a => a.status == .in_progress) = some cur → f cur = cur →
      updFirstInProgress f l = l := by
  intro l
  induction l with
  | nil => intro cur h _; simp [List.find?] at h
  | cons a rest ih =>
    intro cur h hf
    by_cases hs : (a.status == AttemptStatus.in_progress) = true
    · rw [List.find?_cons_of_pos (p := fun a => a.status == AttemptStatus.in_progress) rest hs]
        at h
      have ha : a = cur := by injection h
      unfold updFirstInProgress
      rw [if_pos hs, ha, hf]
    · rw [List.find?_cons_of_neg (p := fun a => a.status == AttemptStatus.in_progress) rest
        (by simpa using hs)] at h
      unfold updFirstInProgress
      rw [if_neg hs, ih h hf]

/-- While the quiz is unlimited or the time limit has not yet expired,
get_time_remaining does not modify the attempt. -/
theorem get_time_remaining_not_expired (a : QuizAttempt) (q : Quiz) (now : Nat)
    (h : q.time_limit = 0 ∨ 0 < (q.time_limit : Int) * 60 - ((now : Int) - (a.started_at : Int))) :
    (a.get_time_remaining q now).2 = a := by
  unfold QuizAttempt.get_time_remaining
  by_cases hc : q.time_limit = 0 ∨ a.status ≠ AttemptStatus.in_progress
  · rw [if_pos hc]
  · rw [if_neg hc]
    have hl : ¬ q.time_limit = 0 := fun h0 => hc (Or.inl h0)
    have hr : 0 < (q.time_limit : Int) * 60 - ((now : Int) - (a.started_at : Int)) := by
      rcases h with h | h
      · exact absurd h hl
      · exact h
    rw [if_neg (by omega)]

/-- C6 counterexample: with a one-minute time limit, an incomplete submission
arriving at the deadline is rejected but flips the attempt to completed (the
warning render's get_time_remaining call auto-expires it), so state does
change; and the rejection outputs for a submission missing question 2 versus
one missing question 1 are identical, so the response does not identify which
questions are missing. -/
theorem incomplete_submission_counterexample :
    ((take_quiz stT true [(1, "A")] 60).1 = .incomplete 1 2
      ∧ (take_quiz stT true [(1, "A")] 60).2.attempts.map (fun a => a.status) = [.completed])
    ∧ take_quiz stT true [(1, "A")] 10 = take_quiz stT true [(2, "B")] 10 := by
  exact ⟨⟨by decide, by decide⟩, by decide⟩

/-- C6 amended: a submission carrying fewer answers than the quiz's question
count is rejected with a recoverable validation outcome reporting how many of
how many questions were answered (not which ones), and — provided the quiz is
untimed or the time limit has not expired — the store is completely
unchanged: the attempt stays in_progress with answers, score, percentage,
passed and completed_at untouched. -/
theorem incomplete_submission_amended (st : Store) (ans : List (Nat × String)) (now : Nat)
    (cur : QuizAttempt)
    (he : st.enrolled = true) (hp : st.quiz.is_published = true)
    (hcap : ¬ (0 < st.quiz.max_attempts ∧ st.quiz.max_attempts ≤ st.attempts.length))
    (hcur : st.attempts.find? (fun a => a.status == .in_progress) = some cur)
    (hlt : ans.length < st.quiz.questions.length)
    (hnx : st.quiz.time_limit = 0
      ∨ 0 < (st.quiz.time_limit : Int) * 60 - ((now : Int) - (cur.started_at : Int))) :
    take_quiz st true ans now = (.incomplete ans.length st.quiz.questions.length, st) := by
  unfold take_quiz
  simp only [he, hp, if_neg hcap, hcur, if_pos hlt]
  have hcu : (cur.get_time_remaining st.quiz now).2 = cur :=
    get_time_remaining_not_expired cur st.quiz now hnx
  unfold renderUpdate
  rw [updFirstInProgress_eq_self hcur hcu]
  simp

/-- Witness for incomplete_submission_amended on the timed store before
expiry. -/
theorem incomplete_submission_amended_witness :
    take_quiz stT true [(1, "A")] 10 = (.incomplete 1 2, stT) :=
  incomplete_submission_amended stT [(1, "A")] 10 (freshAttempt 1 0)
    (by decide) (by decide) (by decide) (by decide) (by decide) (by decide)

/-- Completed rows survive an update of the first in-progress row. -/
theorem mem_updFirstInProgress_of_completed (f : QuizAttempt → QuizAttempt)
    {a : QuizAttempt} {l : List QuizAttempt}
    (ha : a ∈ l) (hc : a.status = .completed) : a ∈ updFirstInProgress f l := by
  induction l with
  | nil => simp at ha
  | cons b rest ih =>
    unfold updFirstInProgress
    by_cases hb : (b.status == AttemptStatus.in_progress) = true
    · rw [if_pos hb]
      rcases List.mem_cons.mp ha with h | h
      · subst h
        rw [hc] at hb
        exact absurd hb (by decide)
      · exact List.mem_cons_of_mem _ h
    · rw [if_neg hb]
      rcases List.mem_cons.mp ha with h | h
      · subst h
        exact List.mem_cons_self _ _
      · exact List.mem_cons_of_mem _ (ih h)

/-- C5: when a timed attempt is read with the time limit elapsed,
get_time_remaining completes the attempt as a side effect and returns 0; the
query returns null exactly when the quiz is untimed or the attempt is no
longer in progress; and a completed attempt row survives every subsequent
take_quiz request unchanged (no submission ever re-scores it). -/
theorem time_expiry_behavior :
    (∀ (a : QuizAttempt) (q : Quiz) (now : Nat),
        q.time_limit ≠ 0 → a.status = .in_progress →
        (q.time_limit : Int) * 60 ≤ (now : Int) - (a.started_at : Int) →
        a.get_time_remaining q now = (some 0, { a with status := .completed }))
    ∧ (∀ (a : QuizAttempt) (q : Quiz) (now : Nat),
        (a.get_time_remaining q now).1 = none ↔ (q.time_limit = 0 ∨ a.status ≠ .in_progress))
    ∧ (∀ (st : Store) (isPost : Bool) (ans : List (Nat × String)) (now : Nat)
        (a : QuizAttempt), a ∈ st.attempts → a.status = .completed →
        a ∈ (take_quiz st isPost ans now).2.attempts) := by
  refine ⟨?_, ?_, ?_⟩
  · intro a q now hl hs hexp
    unfold QuizAttempt.get_time_remaining
    rw [if_neg (by simp [hl, hs]), if_pos (by omega)]
  · intro a q now
    unfold QuizAttempt.get_time_remaining
    by_cases hc : q.time_limit = 0 ∨ a.status ≠ AttemptStatus.in_progress
    · simp [hc]
    · rw [if_neg hc]
      constructor
      · intro h
        by_cases hr : (q.time_limit : Int) * 60 - ((now : Int) - (a.started_at : Int)) ≤ 0
        · rw [if_pos hr] at h
          simp at h
        · rw [if_neg hr] at h
          simp at h
      · intro h
        exact absurd h hc
  · intro st isPost ans now a ha hc
    unfold take_quiz
    split
    · exact ha
    split
    · exact ha
    split
    · exact ha
    split
    · split
      · split
        · exact mem_updFirstInProgress_of_completed _ ha hc
        · exact mem_updFirstInProgress_of_completed _ ha hc
      · exact mem_updFirstInProgress_of_completed _ ha hc
    · split
      · exact ha
      · exact mem_updFirstInProgress_of_completed _ (List.mem_cons_of_mem _ ha) hc

/-- Witness for time_expiry_behavior: the timed attempt expires at 60
seconds, and a completed attempt survives a full-answer resubmission. -/
theorem time_expiry_behavior_witness :
    (freshAttempt 1 0).get_time_remaining qT 60
        = (some 0, { freshAttempt 1 0 with status := .completed })
    ∧ completedAttempt ∈ (take_quiz stC true [(1, "A"), (2, "B")] 99).2.attempts :=
  ⟨time_expiry_behavior.1 (freshAttempt 1 0) qT 60 (by decide) rfl (by decide),
    time_expiry_behavior.2.2 stC true [(1, "A"), (2, "B")] 99 completedAttempt
      (by decide) rfl⟩

/-- C3: the lesson_detail endpoint denies an anonymous principal even for a
free-preview lesson (the @login_required decorator redirects to login before
the free-preview branch can run), although its internal comment says anyone
can access a free preview; the remaining rules behave as claimed: an
authenticated non-owner non-admin student is denied a non-preview lesson
while unenrolled and granted once enrolled, and an authenticated student
sees free previews. -/
theorem lesson_access_eval :
    lesson_detail_access none ⟨true⟩ aCourse false = false
    ∧ lesson_detail_access (some aStudent) ⟨false⟩ aCourse false = false
    ∧ lesson_detail_access (some aStudent) ⟨false⟩ aCourse true = true
    ∧ lesson_detail_access (some aStudent) ⟨true⟩ aCourse false = true
    ∧ (∀ (u : User) (c : Course) (e : Bool),
        lesson_detail_access (some u) ⟨false⟩ c e
          = ((u.is_instructor && c.instructor_id == u.id) || u.is_admin_user || e)) := by
  exact ⟨rfl, rfl, rfl, rfl, fun u c e => rfl⟩

/-- C9: delete_question performs no authorization check: a plain student who
fails the manage-course predicate still gets success and the question row is
deleted (with the survivors renumbered), and the endpoint's entire outcome is
independent of the requesting principal. -/
theorem delete_question_unauthorized :
    canManageCourse aStudent aCourse = false
    ∧ delete_question aStudent true [⟨1, 1, "A", 1⟩, ⟨2, 1, "B", 2⟩] 1
        = (.success, [⟨2, 1, "B", 1⟩])
    ∧ (∀ (u v : User) (isPost : Bool) (qs : List Question) (qid : Nat),
        delete_question u isPost qs qid = delete_question v isPost qs qid) := by
  exact ⟨rfl, by decide, fun u v isPost qs qid => rfl⟩

/-- get_time_remaining never changes the attempt number. -/
theorem get_time_remaining_num (a : QuizAttempt) (q : Quiz) (now : Nat) :
    ((a.get_time_remaining q now).2).attempt_number = a.attempt_number := by
  unfold QuizAttempt.get_time_remaining
  split
  · rfl
  · dsimp only
    split <;> rfl

/-- calculate_score never changes the attempt number. -/
theorem calculate_score_num (a : QuizAttempt) (q : Quiz) :
    (a.calculate_score q).attempt_number = a.attempt_number := by
  unfold QuizAttempt.calculate_score
  dsimp only
  split <;> rfl

/-- Updating the first in-progress row with an attempt-number-preserving
function preserves the attempt-number column. -/
theorem updFirstInProgress_map_num (f : QuizAttempt → QuizAttempt)
    (hf : ∀ a, (f a).attempt_number = a.attempt_number) :
    ∀ l : List QuizAttempt,
      (updFirstInProgress f l).map (fun a => a.attempt_number)
        = l.map (fun a => a.attempt_number) := by
  intro l
  induction l with
  | nil => rfl
  | cons b rest ih =>
    unfold updFirstInProgress
    by_cases hb : (b.status == AttemptStatus.in_progress) = true
    · rw [if_pos hb]
      simp [hf b]
    · rw [if_neg hb]
      simp [ih]

/-- Updating the first in-progress row never increases the number of
in-progress rows. -/
theorem updFirstInProgress_count_le (f : QuizAttempt → QuizAttempt) :
    ∀ l : List QuizAttempt,
      inProgressCount (updFirstInProgress f l) ≤ inProgressCount l := by
  intro l
  induction l with
  | nil => exact Nat.le_refl _
  | cons b rest ih =>
    unfold updFirstInProgress inProgressCount
    unfold inProgressCount at ih
    by_cases hb : (b.status == AttemptStatus.in_progress) = true
    · rw [if_pos hb, List.countP_cons, List.countP_cons, if_pos hb]
      by_cases hfb : ((f b).status == AttemptStatus.in_progress) = true
      · rw [if_pos hfb]
      · rw [if_neg hfb]
        omega
    · rw [if_neg hb, List.countP_cons, List.countP_cons]
      omega

/-- With no in-progress row present, updFirstInProgress is the identity. -/
theorem updFirstInProgress_of_none (f : QuizAttempt → QuizAttempt) :
    ∀ {l : List QuizAttempt},
      l.find? (fun a => a.status == .in_progress) = none → updFirstInProgress f l = l := by
  intro l
  induction l with
  | nil => intro _; rfl
  | cons b rest ih =>
    intro h
    by_cases hb : (b.status == AttemptStatus.in_progress) = true
    · rw [List.find?_cons_of_pos (p := fun a => a.status == AttemptStatus.in_progress) rest hb]
        at h
      exact absurd h (by simp)
    · rw [List.find?_cons_of_neg (p := fun a => a.status == AttemptStatus.in_progress) rest
        (by simpa using hb)] at h
      unfold updFirstInProgress
      rw [if_neg hb, ih h]

/-- With no in-progress row present, the in-progress count is zero. -/
theorem count_zero_of_find?_none {l : List QuizAttempt}
    (h : l.find? (fun a => a.status == .in_progress) = none) : inProgressCount l = 0 := by
  unfold inProgressCount
  rw [List.countP_eq_zero]
  intro a ha
  simpa using List.find?_eq_none.mp h a ha

/-- One take_quiz step either preserves the attempt-number column without
increasing the in-progress count, or — only when no attempt was in
progress — prepends a single new in-progress attempt numbered length + 1. -/
theorem take_quiz_shape (st : Store) (isPost : Bool) (ans : List (Nat × String)) (now : Nat) :
    ((take_quiz st isPost ans now).2.attempts.map (fun a => a.attempt_number)
        = st.attempts.map (fun a => a.attempt_number)
      ∧ inProgressCount (take_quiz st isPost ans now).2.attempts ≤ inProgressCount st.attempts)
    ∨ (st.attempts.find? (fun a => a.status == .in_progress) = none
      ∧ (take_quiz st isPost ans now).2.attempts.map (fun a => a.attempt_number)
          = (st.attempts.length + 1) :: st.attempts.map (fun a => a.attempt_number)
      ∧ inProgressCount (take_quiz st isPost ans now).2.attempts ≤ 1) := by
  have hrender : ∀ (s : Store) (t : Nat),
      (renderUpdate s t).attempts.map (fun a => a.attempt_number)
          = s.attempts.map (fun a => a.attempt_number)
        ∧ inProgressCount (renderUpdate s t).attempts ≤ inProgressCount s.attempts := by
    intro s t
    unfold renderUpdate
    exact ⟨updFirstInProgress_map_num _ (fun a => get_time_remaining_num a s.quiz t) _,
      updFirstInProgress_count_le _ _⟩
  unfold take_quiz
  split
  · exact Or.inl ⟨rfl, Nat.le_refl _⟩
  split
  · exact Or.inl ⟨rfl, Nat.le_refl _⟩
  split
  · exact Or.inl ⟨rfl, Nat.le_refl _⟩
  split
  · split
    · split
      · exact Or.inl (hrender st now)
      · refine Or.inl ⟨?_, ?_⟩
        · dsimp only
          exact updFirstInProgress_map_num _
            (fun c => calculate_score_num
              { c with answers := ans, completed_at := some now,
                       time_taken := now - c.started_at } st.quiz) st.attempts
        · dsimp only
          exact updFirstInProgress_count_le _ st.attempts
    · exact Or.inl (hrender st now)
  · next hfind =>
    split
    · exact Or.inl ⟨rfl, Nat.le_refl _⟩
    · refine Or.inr ⟨hfind, ?_, ?_⟩
      · dsimp only
        have h1 := (hrender ⟨st.quiz, st.enrolled,
          freshAttempt (st.attempts.length + 1) now :: st.attempts⟩ now).1
        rw [h1]
        simp [freshAttempt]
      · dsimp only
        have h1 := (hrender ⟨st.quiz, st.enrolled,
          freshAttempt (st.attempts.length + 1) now :: st.attempts⟩ now).2
        dsimp only at h1
        have h2 : inProgressCount
            (freshAttempt (st.attempts.length + 1) now :: st.attempts)
            = inProgressCount st.attempts + 1 := by
          unfold inProgressCount
          rw [List.countP_cons,
            if_pos (show ((freshAttempt (st.attempts.length + 1) now).status
              == AttemptStatus.in_progress) = true from rfl)]
        have h3 : inProgressCount st.attempts = 0 := count_zero_of_find?_none hfind
        omega

/-- Membership in the descending list [n, ..., 1]. -/
theorem mem_descFrom (k : Nat) : ∀ n : Nat, k ∈ descFrom n ↔ 1 ≤ k ∧ k ≤ n := by
  intro n
  induction n with
  | zero =>
    simp only [descFrom, List.not_mem_nil, false_iff]
    omega
  | succ n ih =>
    rw [descFrom, List.mem_cons, ih]
    omega

/-- The descending list [n, ..., 1] has no duplicates. -/
theorem nodup_descFrom : ∀ n : Nat, (descFrom n).Nodup := by
  intro n
  induction n with
  | zero => simp [descFrom]
  | succ n ih =>
    rw [descFrom, List.nodup_cons]
    refine ⟨?_, ih⟩
    rw [mem_descFrom]
    omega

/-- A permitted GET while an attempt is in progress re-renders that same
attempt: the outcome page carries its attempt number, and the store's
attempt rows only undergo the render-time expiry update. -/
theorem take_quiz_get_inprogress (st : Store) (ans : List (Nat × String)) (now : Nat)
    (cur : QuizAttempt)
    (he : st.enrolled = true) (hp : st.quiz.is_published = true)
    (hcap : ¬ (0 < st.quiz.max_attempts ∧ st.quiz.max_attempts ≤ st.attempts.length))
    (hcur : st.attempts.find? (fun a => a.status == .in_progress) = some cur) :
    take_quiz st false ans now = (.page (some cur.attempt_number), renderUpdate st now) := by
  unfold take_quiz
  simp only [he, hp, if_neg hcap, hcur]
  simp

/-- Core inductive invariant of the per-(student, quiz) attempt history: at
most one in-progress row, and the attempt-number column is exactly
[n, ..., 1] newest-first. -/
theorem reach_invariant (q : Quiz) (st : Store) (h : Reach q st) :
    inProgressCount st.attempts ≤ 1
    ∧ st.attempts.map (fun a => a.attempt_number) = descFrom st.attempts.length := by
  induction h with
  | init => exact ⟨Nat.zero_le _, rfl⟩
  | enroll _ ih => exact ih
  | unenroll _ ih => exact ih
  | @take st isPost ans now _ ih =>
    rcases take_quiz_shape st isPost ans now with ⟨hm, hc⟩ | ⟨_, hm, hc⟩
    · have hlen : (take_quiz st isPost ans now).2.attempts.length = st.attempts.length := by
        have := congrArg List.length hm
        simpa using this
      exact ⟨Nat.le_trans hc ih.1, by rw [hm, hlen, ih.2]⟩
    · have hlen : (take_quiz st isPost ans now).2.attempts.length
          = st.attempts.length + 1 := by
        have := congrArg List.length hm
        simpa using this
      refine ⟨hc, ?_⟩
      rw [hm, hlen, descFrom, ih.2]
  | @query st now _ ih =>
    have hmap := updFirstInProgress_map_num
      (fun a => (a.get_time_remaining st.quiz now).2)
      (fun a => get_time_remaining_num a st.quiz now) st.attempts
    have hlen : (renderUpdate st now).attempts.length = st.attempts.length := by
      have := congrArg List.length hmap
      simpa using this
    refine ⟨?_, ?_⟩
    · exact Nat.le_trans (updFirstInProgress_count_le _ st.attempts) ih.1
    · show (renderUpdate st now).attempts.map (fun a => a.attempt_number)
        = descFrom (renderUpdate st now).attempts.length
      unfold renderUpdate at hlen ⊢
      rw [hmap, hlen, ih.2]

/-- Once the attempt count has reached a positive cap, every take-quiz
request — GET or POST — is turned away with the max-attempts error and the
store is untouched. -/
theorem take_quiz_capped (st : Store) (isPost : Bool) (ans : List (Nat × String)) (now : Nat)
    (he : st.enrolled = true) (hp : st.quiz.is_published = true)
    (hcap : 0 < st.quiz.max_attempts ∧ st.quiz.max_attempts ≤ st.attempts.length) :
    take_quiz st isPost ans now = (.maxAttemptsReached, st) := by
  unfold take_quiz
  simp only [he, hp, if_pos hcap]
  simp

/-- C2 counterexample: st4 (quiz capped at max_attempts = 1, enrolled
student, their single attempt in progress) is reachable, yet a take-quiz
GET does not return the in-progress attempt: the cap check fires first and
the request is rejected with maxAttemptsReached, the store unchanged. -/
theorem attempt_reuse_counterexample :
    Reach q4 st4
    ∧ (st4.attempts.find? (fun a => a.status == .in_progress)).isSome = true
    ∧ take_quiz st4 false [] 30 = (.maxAttemptsReached, st4) := by
  refine ⟨?_, by decide, by decide⟩
  exact Reach.take false [] 0 (Reach.enroll Reach.init)

/-- C2 amended: in every reachable per-(student, quiz) state, at most one
attempt is in progress; the attempt numbers are exactly n, ..., 1
newest-first — so they are duplicate-free and cover exactly 1..n with no
gaps; a take-quiz GET issued while an attempt is in progress and the attempt
cap is not yet reached returns that same attempt's number and creates no new
attempt row; and once a positive cap is reached (the open attempt included
in the count), any request is rejected with the max-attempts error and no
attempt is returned, created, or changed. -/
theorem attempt_invariants (q : Quiz) (st : Store) (h : Reach q st) :
    (inProgressCount st.attempts ≤ 1
      ∧ st.attempts.map (fun a => a.attempt_number) = descFrom st.attempts.length
      ∧ (st.attempts.map (fun a => a.attempt_number)).Nodup
      ∧ ∀ k, k ∈ st.attempts.map (fun a => a.attempt_number)
          ↔ 1 ≤ k ∧ k ≤ st.attempts.length)
    ∧ (∀ (ans : List (Nat × String)) (now : Nat) (cur : QuizAttempt),
        st.enrolled = true → st.quiz.is_published = true →
        ¬ (0 < st.quiz.max_attempts ∧ st.quiz.max_attempts ≤ st.attempts.length) →
        st.attempts.find? (fun a => a.status == .in_progress) = some cur →
        (take_quiz st false ans now).1 = .page (some cur.attempt_number)
          ∧ (take_quiz st false ans now).2.attempts.map (fun a => a.attempt_number)
              = st.attempts.map (fun a => a.attempt_number))
    ∧ (∀ (isPost : Bool) (ans : List (Nat × String)) (now : Nat),
        st.enrolled = true → st.quiz.is_published = true →
        0 < st.quiz.max_attempts → st.quiz.max_attempts ≤ st.attempts.length →
        take_quiz st isPost ans now = (.maxAttemptsReached, st)) := by
  obtain ⟨hcount, hnum⟩ := reach_invariant q st h
  refine ⟨⟨hcount, hnum, ?_, ?_⟩, ?_, ?_⟩
  · rw [hnum]
    exact nodup_descFrom _
  · intro k
    rw [hnum]
    exact mem_descFrom k _
  · intro ans now cur he hp hcap hcur
    rw [take_quiz_get_inprogress st ans now cur he hp hcap hcur]
    refine ⟨rfl, ?_⟩
    unfold renderUpdate
    exact updFirstInProgress_map_num _ (fun a => get_time_remaining_num a st.quiz now) _
  · intro isPost ans now he hp h1 h2
    exact take_quiz_capped st isPost ans now he hp ⟨h1, h2⟩

/-- Witness for attempt_invariants at the reachable store stT (reached by
enrolling and then taking the timed quiz at time 0), plus the capped
rejection at the reachable store st4. -/
theorem attempt_invariants_witness :
    (inProgressCount stT.attempts ≤ 1
      ∧ stT.attempts.map (fun a => a.attempt_number) = descFrom stT.attempts.length
      ∧ take_quiz stT false [] 10 = (.page (some 1), stT))
    ∧ take_quiz st4 true [(1, "A")] 30 = (.maxAttemptsReached, st4) := by
  constructor
  · have h1 : Reach qT ⟨qT, true, []⟩ := Reach.enroll Reach.init
    have hr : Reach qT stT := Reach.take false [] 0 h1
    have hmain := attempt_invariants qT stT hr
    refine ⟨hmain.1.1, hmain.1.2.1, ?_⟩
    have hget := take_quiz_get_inprogress stT [] 10 (freshAttempt 1 0)
      (by decide) (by decide) (by decide) (by decide)
    rw [hget]
    decide
  · have hr4 : Reach q4 st4 := Reach.take false [] 0 (Reach.enroll Reach.init)
    exact (attempt_invariants q4 st4 hr4).2.2 true [(1, "A")] 30
      (by decide) (by decide) (by decide) (by decide)

end LMS
